import Mathlib

/-!
Shallow embedding of the tap-csv stream engine (src/tap_csv/client.py) and
proofs about the claims of its specification.

The filesystem and the Python standard library are external collaborators;
they are modelled as explicit data (an `FS` value holding the parsed rows of
every file, and pure parsing functions reproducing the behaviour of the
Python builtins used by the source: `int`, `float`, `str`,
`datetime.strptime` / `strftime`).  Stream-instance state (the cached file
path list and header of `CSVStream`) is threaded explicitly as a
`StreamState`.  Python exceptions are modelled with `Except`.
-/

namespace TapCsv

/-- Column-name constant from the source (`SDC_SOURCE_FILE_COLUMN`). -/
def SDC_SOURCE_FILE_COLUMN : String := "_sdc_source_file"

/-- Column-name constant from the source (`SDC_SOURCE_LINENO_COLUMN`). -/
def SDC_SOURCE_LINENO_COLUMN : String := "_sdc_source_lineno"

/-- Column-name constant from the source (`SDC_SOURCE_FILE_MTIME_COLUMN`). -/
def SDC_SOURCE_FILE_MTIME_COLUMN : String := "_sdc_source_file_mtime"

/-- A Python runtime value as it can appear in an emitted row dictionary:
a CSV string field, an `int`, a `float` (modelled exactly as a rational: the
binary rounding of Python floats is not observed by any claim), or the
`datetime` object produced by `datetime.fromtimestamp(os.path.getmtime(p))`,
carried as its abstract timestamp. -/
inductive Value where
  | str (s : String)
  | int (n : Int)
  | num (q : Rat)
  | datetime (t : Nat)
deriving DecidableEq, Repr

/-! ## Python primitives used by the source -/

/-- Characters stripped by Python `int()` / `float()` around a numeric
literal (the ASCII whitespace; the source never feeds non-ASCII spacing). -/
def isPySpace (c : Char) : Bool :=
  c == ' ' || c == '\t' || c == '\n' || c == '\r' || c == '\x0b' || c == '\x0c'

/-- Digit run with single underscores allowed between digits, continuing an
already-seen first digit with accumulator `acc` (the grammar of Python
numeric literals accepted by `int()` and `float()`). -/
def pyDigitsAux : List Char → Nat → Option Nat
  | [], acc => some acc
  | '_' :: c :: cs, acc =>
      if c.isDigit then pyDigitsAux cs (acc * 10 + (c.toNat - 48)) else none
  | c :: cs, acc =>
      if c.isDigit then pyDigitsAux cs (acc * 10 + (c.toNat - 48)) else none

/-- A nonempty digit run (underscores allowed between digits), as accepted
after the optional sign by Python `int()`. -/
def pyParseDigits (cs : List Char) : Option Nat :=
  match cs with
  | c :: rest => if c.isDigit then pyDigitsAux rest (c.toNat - 48) else none
  | [] => none

/-- Python `int(s)` for a `str` argument: strips surrounding whitespace, then
an optional sign and a digit run.  On any other shape Python raises
`ValueError` (the only exception `int()` raises for a `str` argument),
modelled as `none`. -/
def pythonInt (s : String) : Option Int :=
  let cs := ((s.toList.dropWhile isPySpace).reverse.dropWhile isPySpace).reverse
  match cs with
  | '+' :: rest => (pyParseDigits rest).map Int.ofNat
  | '-' :: rest => (pyParseDigits rest).map (fun n => -(n : Int))
  | _ => (pyParseDigits cs).map Int.ofNat

/-- Digit run with underscores, also returning how many digits were read
(needed for the value of a fractional part). -/
def pyDigitsCountAux : List Char → Nat → Nat → Option (Nat × Nat)
  | [], acc, k => some (acc, k)
  | '_' :: c :: cs, acc, k =>
      if c.isDigit then pyDigitsCountAux cs (acc * 10 + (c.toNat - 48)) (k + 1) else none
  | c :: cs, acc, k =>
      if c.isDigit then pyDigitsCountAux cs (acc * 10 + (c.toNat - 48)) (k + 1) else none

/-- Nonempty digit run with count. -/
def pyParseDigitsCount (cs : List Char) : Option (Nat × Nat) :=
  match cs with
  | c :: rest => if c.isDigit then pyDigitsCountAux rest (c.toNat - 48) 1 else none
  | [] => none

/-- Splits a character list at the first `e`/`E`, for the exponent part of a
float literal. -/
def splitAtExpChar : List Char → List Char × Option (List Char)
  | [] => ([], none)
  | c :: cs =>
      if c == 'e' || c == 'E' then ([], some cs)
      else
        let r := splitAtExpChar cs
        (c :: r.1, r.2)

/-- Splits a character list at the first `.`, for the fractional part. -/
def splitAtDotChar : List Char → List Char × Option (List Char)
  | [] => ([], none)
  | c :: cs =>
      if c == '.' then ([], some cs)
      else
        let r := splitAtDotChar cs
        (c :: r.1, r.2)

/-- The signed exponent of a float literal. -/
def pyParseExp (cs : List Char) : Option Int :=
  match cs with
  | '+' :: rest => (pyParseDigits rest).map Int.ofNat
  | '-' :: rest => (pyParseDigits rest).map (fun n => -(n : Int))
  | _ => (pyParseDigits cs).map Int.ofNat

/-- The unsigned mantissa of a float literal: digits, optionally followed by
a dot and an optional fractional digit run (at least one digit overall). -/
def pyParseMantissa (cs : List Char) : Option Rat :=
  match splitAtDotChar cs with
  | (intPart, none) => (pyParseDigitsCount intPart).map (fun p => (p.1 : Rat))
  | (intPart, some fracPart) =>
      match intPart, fracPart with
      | [], [] => none
      | [], f =>
          (pyParseDigitsCount f).map (fun p => (p.1 : Rat) / ((10 : Rat) ^ p.2))
      | i, [] => (pyParseDigitsCount i).map (fun p => (p.1 : Rat))
      | i, f =>
          match pyParseDigitsCount i, pyParseDigitsCount f with
          | some pi, some pf =>
              some ((pi.1 : Rat) + (pf.1 : Rat) / ((10 : Rat) ^ pf.2))
          | _, _ => none

/-- Python `float(s)` for a decimal `str` literal: optional sign, mantissa,
optional exponent; the value is modelled exactly as a rational.  The
`inf` / `nan` spellings Python also accepts are not modelled: no schema
column is ever selected for the float cast (see `double_columns_nil`), so
this function is dead code in every pipeline run, exactly as in the source. -/
def pythonFloat (s : String) : Option Rat :=
  let cs := ((s.toList.dropWhile isPySpace).reverse.dropWhile isPySpace).reverse
  let signed : Rat × List Char :=
    match cs with
    | '+' :: rest => (1, rest)
    | '-' :: rest => (-1, rest)
    | rest => (1, rest)
  match splitAtExpChar signed.2 with
  | (mant, none) => (pyParseMantissa mant).map (fun m => signed.1 * m)
  | (mant, some expPart) =>
      match pyParseMantissa mant, pyParseExp expPart with
      | some m, some e =>
          some (signed.1 * m * ((10 : Rat) ^ e))
      | _, _ => none

/-- Python `str(v)` for the values that can appear in a row dictionary.  For
strings it is the identity; the renderings of `int`, `float` and `datetime`
objects are abstracted as injective images (no claim observes their exact
text; `float` here is unreachable, see `double_columns_nil`). -/
def pythonStr : Value → String
  | .str s => s
  | .int n => toString n
  | .num q => toString q
  | .datetime t => toString t

/-! ## Date handling (`_transform_date`) -/

/-- Gregorian leap-year rule, as applied by `datetime`. -/
def isLeapYear (y : Nat) : Bool :=
  (y % 4 == 0 && y % 100 != 0) || (y % 400 == 0)

/-- Days in a month, as validated by the `datetime` constructor. -/
def daysInMonth (y m : Nat) : Nat :=
  if m == 2 then (if isLeapYear y then 29 else 28)
  else if m == 4 || m == 6 || m == 9 || m == 11 then 30
  else 31

/-- A component of at most `k` digits, all numeric (the `strptime` regular
expressions for `%m` and `%d` accept one or two digits). -/
def parseNatComp (cs : List Char) (k : Nat) : Option Nat :=
  if cs ≠ [] ∧ cs.length ≤ k ∧ cs.all Char.isDigit then
    some (cs.foldl (fun acc c => acc * 10 + (c.toNat - 48)) 0)
  else none

/-- A component of exactly two digits (the `strptime` expression for `%y`). -/
def parseTwoDigits (cs : List Char) : Option Nat :=
  if cs.length = 2 ∧ cs.all Char.isDigit then
    some (cs.foldl (fun acc c => acc * 10 + (c.toNat - 48)) 0)
  else none

/-- Splitting a character list on `/`, for the shape of the
`%m/%d/%y` pattern (digit components cannot contain a slash, so a full
regex match is exactly a three-way split with matching components). -/
def splitSlashAux : List Char → List Char → List (List Char)
  | [], acc => [acc.reverse]
  | '/' :: rest, acc => acc.reverse :: splitSlashAux rest []
  | c :: rest, acc => splitSlashAux rest (c :: acc)

/-- The `/`-separated components of a string. -/
def splitSlash (s : String) : List (List Char) :=
  splitSlashAux s.toList []

/-- `datetime.strptime(s, "%m/%d/%y")`: a full match of
month `/` day `/` two-digit year, month 1-12, day 1-31 and valid for the
month (the `datetime` constructor validates it), with the POSIX century
pivot for `%y` (00-68 maps to 2000-2068, 69-99 to 1969-1999).  Returns
`(year, month, day)`; `none` models the `ValueError` the source catches. -/
def parseMMDDYY (s : String) : Option (Nat × Nat × Nat) :=
  match splitSlash s with
  | [ms, ds, ys] =>
      match parseNatComp ms 2, parseNatComp ds 2, parseTwoDigits ys with
      | some m, some d, some y =>
          if 1 ≤ m ∧ m ≤ 12 ∧ 1 ≤ d ∧ d ≤ 31 then
            let year := if y ≤ 68 then 2000 + y else 1900 + y
            if d ≤ daysInMonth year m then some (year, m, d) else none
          else none
      | _, _, _ => none
  | _ => none

/-- Zero-padding to two digits, as `strftime` does for `%m` and `%d`. -/
def pad2 (n : Nat) : String :=
  if n < 10 then "0" ++ toString n else toString n

/-- `_transform_date`: parse `MM/DD/YY` and reformat as `YYYY-MM-DD`
(`strftime("%Y-%m-%d")`; the years reachable from `%y` always have four
digits); on parse failure the original string is returned (the source logs
a warning and returns `date_str`). -/
def _transform_date (date_str : String) : String :=
  match parseMMDDYY date_str with
  | some (y, m, d) => toString y ++ "-" ++ pad2 m ++ "-" ++ pad2 d
  | none => date_str

/-- `_transform_date` lifted to row values.  Date-typed columns always hold
CSV string fields; on any other value the source's `strptime` would raise a
`TypeError` that `except ValueError` does not catch, but that case is
unreachable in the pipeline, so it is modelled as the identity. -/
def _transform_date_value : Value → Value
  | .str s => .str (_transform_date s)
  | v => v

/-- `_safe_cast(value, int)`: Python `int()` under `try/except ValueError`.
The second component records whether the warning branch was taken.  `int` of
an `int` is the identity (the line-number column); a `float` truncates
toward zero; a `datetime` would raise an uncaught `TypeError` in the source
but is unreachable (no integer-typed column ever holds one). -/
def _safe_cast_int : Value → Value × Bool
  | .str s =>
      match pythonInt s with
      | some n => (.int n, false)
      | none => (.str s, true)
  | .int n => (.int n, false)
  | .num q => (.int (if q < 0 then Rat.ceil q else Rat.floor q), false)
  | .datetime t => (.datetime t, false)

/-- `_safe_cast(value, float)`: Python `float()` under `try/except
ValueError`; same conventions as `_safe_cast_int`. -/
def _safe_cast_float : Value → Value × Bool
  | .str s =>
      match pythonFloat s with
      | some q => (.num q, false)
      | none => (.str s, true)
  | .int n => (.num (n : Rat), false)
  | .num q => (.num q, false)
  | .datetime t => (.datetime t, false)

/-! ## Configuration, stream state, filesystem -/

/-- One entry of the `custom_mappings` configuration list. -/
structure Mapping where
  key : String
  data_type : String
deriving DecidableEq, Repr

/-- The tap configuration consulted by the stream (`self.config.get`):
`add_metadata_columns` (default `False`) and `custom_mappings`
(default `[]`). -/
structure Config where
  add_metadata_columns : Bool
  custom_mappings : List Mapping
deriving DecidableEq, Repr

/-- The per-stream `file_config`; only its `path` influences the claims
(the dialect options configure the external `csv` module, whose parsing is
modelled by storing each file's already-parsed rows in the filesystem). -/
structure FileConfig where
  path : String
deriving DecidableEq, Repr

/-- A regular file as the pipeline observes it: its path, the row lists the
`csv` reader yields for it, and its `os.path.getmtime` timestamp. -/
structure FSFile where
  path : String
  rows : List (List String)
  mtime : Nat
deriving DecidableEq, Repr

/-- The filesystem oracle: the regular files, and for each directory path
the file paths `os.walk` enumerates beneath it (already joined with their
directory, in walk order, as the source does with `os.path.join`). -/
structure FS where
  files : List FSFile
  dirs : List (String × List String)
deriving DecidableEq, Repr

/-- `os.path.exists`. -/
def FS.pathExists (fs : FS) (p : String) : Bool :=
  fs.dirs.any (fun d => d.1 == p) || fs.files.any (fun f => f.path == p)

/-- `os.path.isdir`. -/
def FS.isDir (fs : FS) (p : String) : Bool :=
  fs.dirs.any (fun d => d.1 == p)

/-- The joined file names `os.walk` produces under a directory. -/
def FS.walk (fs : FS) (p : String) : List String :=
  (((fs.dirs.find? (fun d => d.1 == p)).map (fun d => d.2)).getD [])

/-- `open(p)` / `os.path.getmtime(p)` resolution of a path to its file. -/
def FS.findFile (fs : FS) (p : String) : Option FSFile :=
  fs.files.find? (fun f => f.path == p)

/-- The mutable per-instance state of `CSVStream`: the cached `file_paths`
list and the cached `header` (both start as the empty class-level
defaults). -/
structure StreamState where
  file_paths : List String
  header : List String
deriving DecidableEq, Repr

/-- A fresh stream's state (the class-level defaults `[]` / `[]`). -/
def initialState : StreamState := ⟨[], []⟩

/-- The exceptions the embedded code can raise: the `Exception` for a
missing path, the `RuntimeError` for no acceptable files, the `NameError`
that `schema` would hit if the first file yielded no header row, and the
`OSError` of opening a path with no file behind it. -/
inductive TapError where
  | pathNotFound
  | noEligibleFiles
  | headerUnbound
  | fileNotFound
deriving DecidableEq, Repr

/-! ## File resolution (`get_file_paths`, `is_valid_filename`) -/

/-- `is_valid_filename`: the path's last four characters are `.csv`
(Python `file_path[-4:] != ".csv"`, case-sensitive; a shorter path is
compared whole, as the Python slice yields it; the source also logs a
warning for the rejected file). -/
def is_valid_filename (file_path : String) : Bool :=
  (file_path.toList.reverse.take 4).reverse == ".csv".toList

/-- `_get_recursive_file_paths`: walk the directory and keep the joined
file paths passing `is_valid_filename`, in walk order. -/
def _get_recursive_file_paths (fs : FS) (dirPath : String) : List String :=
  (fs.walk dirPath).filter is_valid_filename

/-- The file list the resolution body builds for an existing path: the
filtered walk for a directory, the path itself for a file passing the
extension check, and nothing otherwise. -/
def eligibleFiles (fs : FS) (p : String) : List String :=
  if fs.isDir p then _get_recursive_file_paths fs p
  else if is_valid_filename p then [p] else []

/-- The uncached body of `get_file_paths`: raise if the configured path
does not exist, collect the eligible files, raise if none were collected. -/
def computeFilePaths (fs : FS) (cfgPath : String) : Except TapError (List String) :=
  if !(fs.pathExists cfgPath) then .error .pathNotFound
  else if (eligibleFiles fs cfgPath).isEmpty then .error .noEligibleFiles
  else .ok (eligibleFiles fs cfgPath)

/-- `get_file_paths`: return the cached list when it is nonempty
(`if self.file_paths:`), otherwise compute it and cache it. -/
def get_file_paths (fc : FileConfig) (fs : FS) (st : StreamState) :
    Except TapError (List String × StreamState) :=
  if st.file_paths.isEmpty then
    match computeFilePaths fs fc.path with
    | .error e => .error e
    | .ok fps => .ok (fps, { st with file_paths := fps })
  else .ok (st.file_paths, st)

/-! ## JSON-schema model (`singer_sdk.typing`) -/

/-- One property of the JSON schema dictionary: its `type` list and optional
`format` marker, the two fields the source inspects. -/
structure PropSchema where
  type : List String
  format : Option String
deriving DecidableEq, Repr

/-- Modelled from the spec: the serialization of `th.StringType`
(spec section 6: STRING maps to JSON type `string`); the `singer_sdk`
library is an external collaborator absent from `src/`. -/
def th_StringType : PropSchema := ⟨["string"], none⟩

/-- Modelled from the spec: the serialization of `th.IntegerType`
(INTEGER maps to JSON type `integer`). -/
def th_IntegerType : PropSchema := ⟨["integer"], none⟩

/-- Modelled from the spec: the serialization of `th.DoubleType`
(DOUBLE maps to JSON type `number`). -/
def th_DoubleType : PropSchema := ⟨["number"], none⟩

/-- Modelled from the spec: the serialization of `th.DateType`
(DATE maps to JSON type `string` with a `date` format marker). -/
def th_DateType : PropSchema := ⟨["string"], some "date"⟩

/-- Modelled from the spec: the serialization of `th.DateTimeType`
(the metadata mtime column maps to `string` with a `date-time` format). -/
def th_DateTimeType : PropSchema := ⟨["string"], some "date-time"⟩

/-! ## Python dictionaries

Row records and the schema's `properties` object are Python dicts: ordered
association lists where inserting an existing key updates the value in
place and a fresh key is appended. -/

/-- Python `d[k] = v`. -/
def dictInsert {α : Type} (d : List (String × α)) (k : String) (v : α) :
    List (String × α) :=
  if d.any (fun p => p.1 == k) then
    d.map (fun p => if p.1 == k then (p.1, v) else p)
  else d ++ [(k, v)]

/-- Python `dict(pairs)`. -/
def dictOfPairs {α : Type} (l : List (String × α)) : List (String × α) :=
  l.foldl (fun d p => dictInsert d p.1 p.2) []

/-- Python `d[k]` / `d.get(k)` (also `k in d` when matched on `isSome`). -/
def recGet {α : Type} (d : List (String × α)) (k : String) : Option α :=
  (d.find? (fun p => p.1 == k)).map (fun p => p.2)

/-! ## Schema inference (the `schema` property) -/

/-- The property the `schema` loop appends for one header column: the first
`custom_mappings` entry whose `key` matches decides the type; with no entry
the column defaults to string; an entry with an unknown `data_type` falls
through every branch and appends nothing. -/
def propOfColumn (cm : List Mapping) (column : String) :
    Option (String × PropSchema) :=
  match cm.find? (fun item => item.key == column) with
  | some mapping =>
      if mapping.data_type == "date" then some (column, th_DateType)
      else if mapping.data_type == "integer" then some (column, th_IntegerType)
      else if mapping.data_type == "double" then some (column, th_DoubleType)
      else if mapping.data_type == "string" then some (column, th_StringType)
      else none
  | none => some (column, th_StringType)

/-- The data-column properties, in header order. -/
def schemaProperties (cm : List Mapping) (hdr : List String) :
    List (String × PropSchema) :=
  hdr.filterMap (propOfColumn cm)

/-- The three provenance properties the source extends `properties` with
when metadata columns are enabled, in source order. -/
def metaProperties : List (String × PropSchema) :=
  [(SDC_SOURCE_FILE_COLUMN, th_StringType),
   (SDC_SOURCE_FILE_MTIME_COLUMN, th_DateTimeType),
   (SDC_SOURCE_LINENO_COLUMN, th_IntegerType)]

/-- The `properties` object of `th.PropertiesList(*properties).to_dict()`
for a given header: the data-column properties, extended (appended) with
the provenance properties when metadata columns are enabled, collapsed into
a dict. -/
def schemaFromHeader (cfg : Config) (hdr : List String) :
    List (String × PropSchema) :=
  dictOfPairs (schemaProperties cfg.custom_mappings hdr ++
    (if cfg.add_metadata_columns then metaProperties else []))

/-- The header value cached on the stream by the `schema` property: the raw
header, with the three provenance names prepended when metadata columns are
enabled. -/
def cachedHeader (cfg : Config) (hdr : List String) : List String :=
  if cfg.add_metadata_columns then
    SDC_SOURCE_FILE_COLUMN :: SDC_SOURCE_FILE_MTIME_COLUMN ::
      SDC_SOURCE_LINENO_COLUMN :: hdr
  else hdr

/-- The `schema` property: resolve the file paths, read the first row of
the first file as the header (an empty first file leaves Python's `header`
name unbound), build the properties, cache the (possibly extended) header
on the stream, and return the properties dict.  There is no caching of the
result itself: every access runs this body again. -/
def schema (cfg : Config) (fc : FileConfig) (fs : FS) (st : StreamState) :
    Except TapError (List (String × PropSchema) × StreamState) :=
  match get_file_paths fc fs st with
  | .error e => .error e
  | .ok (fps, st1) =>
      match fps.head? with
      | none => .error .headerUnbound
      | some p =>
          match fs.findFile p with
          | none => .error .fileNotFound
          | some f =>
              match f.rows.head? with
              | none => .error .headerUnbound
              | some hdr =>
                  .ok (schemaFromHeader cfg hdr,
                       { st1 with header := cachedHeader cfg hdr })

/-! ## Column selection and row transformation -/

/-- `_get_date_columns`: the fields whose schema has `"string"` in its type
and format `date`. -/
def _get_date_columns (schemaD : List (String × PropSchema)) : List String :=
  schemaD.filterMap (fun p =>
    if p.2.type.contains "string" && (p.2.format == some "date") then some p.1
    else none)

/-- `_get_columns_by_type`: the fields whose schema type list contains the
given type name. -/
def _get_columns_by_type (schemaD : List (String × PropSchema))
    (data_type : String) : List String :=
  schemaD.filterMap (fun p =>
    if p.2.type.contains data_type then some p.1 else none)

/-- `if col in row_dict: row_dict[col] = f(row_dict[col])`. -/
def updateCol (d : List (String × Value)) (col : String) (f : Value → Value) :
    List (String × Value) :=
  if d.any (fun p => p.1 == col) then
    d.map (fun p => if p.1 == col then (p.1, f p.2) else p)
  else d

/-- `_apply_transformations`: the four in-place column loops, applied in
source order — dates first, then the integer cast, the float cast, and
`str` (the innermost fold runs first). -/
def _apply_transformations (d : List (String × Value))
    (dateCols intCols doubleCols stringCols : List String) :
    List (String × Value) :=
  stringCols.foldl (fun acc c => updateCol acc c (fun v => Value.str (pythonStr v)))
    (doubleCols.foldl (fun acc c => updateCol acc c (fun v => (_safe_cast_float v).1))
      (intCols.foldl (fun acc c => updateCol acc c (fun v => (_safe_cast_int v).1))
        (dateCols.foldl (fun acc c => updateCol acc c _transform_date_value) d)))

/-- `dict(zip(self.header, row))`: positional pairing, truncating at the
shorter sequence. -/
def dictOfZip (ks : List String) (vs : List Value) : List (String × Value) :=
  dictOfPairs (ks.zip vs)

/-! ## Record streaming (`get_records`) -/

/-- One emitted record: prepend `[file_path, file_last_modified,
file_lineno]` to the raw row when metadata columns are enabled, zip against
the cached header, and apply the transformations. -/
def rowRecord (cfg : Config) (header : List String)
    (dateCols intCols doubleCols stringCols : List String)
    (path : String) (mtime : Nat) (lineno : Int) (row : List String) :
    List (String × Value) :=
  _apply_transformations
    (dictOfZip header
      (if cfg.add_metadata_columns then
        Value.str path :: Value.datetime mtime :: Value.int lineno ::
          row.map Value.str
      else row.map Value.str))
    dateCols intCols doubleCols stringCols

/-- The per-file row loop: `file_lineno` starts at `-1`, is incremented for
every raw row, and the row whose counter is `0` (the header) is skipped
(`if not file_lineno: continue`). -/
def processRows (cfg : Config) (header : List String)
    (dateCols intCols doubleCols stringCols : List String)
    (path : String) (mtime : Nat) :
    Int → List (List String) → List (List (String × Value))
  | _, [] => []
  | lineno, row :: rest =>
      let l := lineno + 1
      if l == 0 then
        processRows cfg header dateCols intCols doubleCols stringCols
          path mtime l rest
      else
        rowRecord cfg header dateCols intCols doubleCols stringCols
            path mtime l row ::
          processRows cfg header dateCols intCols doubleCols stringCols
            path mtime l rest

/-- The outer file loop of `get_records`: capture the file's mtime, then
stream its rows; a path with no file behind it fails the `getmtime` call. -/
def recordsFromFiles (cfg : Config) (header : List String)
    (dateCols intCols doubleCols stringCols : List String) (fs : FS) :
    List String → Except TapError (List (List (String × Value)))
  | [] => .ok []
  | p :: rest =>
      match fs.findFile p with
      | none => .error .fileNotFound
      | some f =>
          match recordsFromFiles cfg header dateCols intCols doubleCols
              stringCols fs rest with
          | .error e => .error e
          | .ok ls =>
              .ok (processRows cfg header dateCols intCols doubleCols
                stringCols p f.mtime (-1) f.rows ++ ls)

/-- `get_records`: access the `schema` property (which caches the file list
and the header), derive the four column lists from it, and stream every
resolved file; the `context` argument of the source is ignored by the body
and therefore not modelled. -/
def get_records (cfg : Config) (fc : FileConfig) (fs : FS)
    (st : StreamState) :
    Except TapError (List (List (String × Value)) × StreamState) :=
  match schema cfg fc fs st with
  | .error e => .error e
  | .ok (schemaD, st1) =>
      let dateCols := _get_date_columns schemaD
      let intCols := _get_columns_by_type schemaD "integer"
      let doubleCols := _get_columns_by_type schemaD "double"
      let stringCols := _get_columns_by_type schemaD "string"
      match get_file_paths fc fs st1 with
      | .error e => .error e
      | .ok (fps, st2) =>
          match recordsFromFiles cfg st2.header dateCols intCols doubleCols
              stringCols fs fps with
          | .error e => .error e
          | .ok ls => .ok (ls, st2)

/-- Equality of `Except` results is decidable when it is on both sides
(used to evaluate the pipeline at concrete inputs). -/
instance {ε α : Type} [DecidableEq ε] [DecidableEq α] :
    DecidableEq (Except ε α) := fun a b =>
  match a, b with
  | .error e1, .error e2 =>
      if h : e1 = e2 then .isTrue (by rw [h]) else .isFalse (by simp [h])
  | .error _, .ok _ => .isFalse (by simp)
  | .ok _, .error _ => .isFalse (by simp)
  | .ok v1, .ok v2 =>
      if h : v1 = v2 then .isTrue (by rw [h]) else .isFalse (by simp [h])

/-! ## Claim C9: metadata disabled end-to-end -/

/-- C9: with metadata columns disabled and no type hints, a single CSV file
with header `a,b` and data rows `1,2` and `3,4` yields exactly the two
records `{a: "1", b: "2"}` then `{a: "3", b: "4"}`, with string values; the
header row is never emitted as a record. -/
theorem end_to_end_two_records :
    get_records ⟨false, []⟩ ⟨"/d/data.csv"⟩
        ⟨[⟨"/d/data.csv", [["a", "b"], ["1", "2"], ["3", "4"]], 5⟩], []⟩
        initialState =
      .ok ([[("a", Value.str "1"), ("b", Value.str "2")],
            [("a", Value.str "3"), ("b", Value.str "4")]],
           ⟨["/d/data.csv"], ["a", "b"]⟩) := by
  decide

/-! ## Claim C4: the integer cast never raises -/

/-- C4: type coercion never raises for any string input: `"42"` against
INTEGER yields the integer `42` (no warning), `"abc"` yields the literal
string `"abc"` unchanged with the warning flag set, and every string input
either parses to an integer or is returned as-is with a warning — never
null, never an exception (Python `int()` raises only `ValueError` on a
`str`, which `_safe_cast` catches). -/
theorem safe_cast_int_total :
    _safe_cast_int (.str "42") = (.int 42, false) ∧
    _safe_cast_int (.str "abc") = (.str "abc", true) ∧
    ∀ s : String,
      (∃ n : Int, _safe_cast_int (.str s) = (.int n, false)) ∨
        _safe_cast_int (.str s) = (.str s, true) := by
  refine ⟨by decide, by decide, fun s => ?_⟩
  cases h : pythonInt s with
  | none => right; simp [_safe_cast_int, h]
  | some n => left; exact ⟨n, by simp [_safe_cast_int, h]⟩

/-! ## Claim C5: the date transform -/

/-- C5: a DATE cell is parsed in `MM/DD/YY` format and reformatted to
`YYYY-MM-DD` (`"03/04/21"` becomes `"2021-03-04"`); any input that fails
the parse (such as `"not-a-date"`) is returned unchanged. -/
theorem transform_date_spec :
    _transform_date "03/04/21" = "2021-03-04" ∧
    _transform_date "not-a-date" = "not-a-date" ∧
    (∀ s, parseMMDDYY s = none → _transform_date s = s) ∧
    (∀ s y m d, parseMMDDYY s = some (y, m, d) →
      _transform_date s = toString y ++ "-" ++ pad2 m ++ "-" ++ pad2 d) := by
  refine ⟨by decide, by decide, fun s h => ?_, fun s y m d h => ?_⟩
  · simp [_transform_date, h]
  · simp [_transform_date, h]

/-- Witness for `transform_date_spec`: the fallback clause applied to a
concrete failing input. -/
theorem transform_date_spec_witness :
    parseMMDDYY "31/99/xx" = none ∧ _transform_date "31/99/xx" = "31/99/xx" :=
  ⟨by decide, transform_date_spec.2.2.1 "31/99/xx" (by decide)⟩

/-! ## Claim C1: the line-number metadata column -/

/-- C1 counterexample: with metadata columns enabled, the first data row of
a file is emitted with `_sdc_source_lineno = 1`, not `0` (the counter
starts at `-1`, the header row raises it to `0`, and the first data row is
prepended the value `1`); the second carries `2`, not `1`. -/
theorem get_records_first_lineno_not_zero :
    (get_records ⟨true, []⟩ ⟨"/d/f.csv"⟩
        ⟨[⟨"/d/f.csv", [["a"], ["x"], ["y"]], 7⟩], []⟩ initialState).toOption.map
        (fun p => p.1.map (fun r => recGet r SDC_SOURCE_LINENO_COLUMN)) =
      some [some (.int 1), some (.int 2)] ∧
    some (Value.int 1) ≠ some (Value.int 0) := by
  exact ⟨by decide, by decide⟩

/-! ## Claim C2: position of the provenance columns in the schema -/

/-- C2 counterexample: with metadata columns enabled and header `a`, the
schema's property list is `a` followed by the three provenance columns —
it does not begin with them. -/
theorem schema_not_prefixed_by_meta :
    (schema ⟨true, []⟩ ⟨"/d/f.csv"⟩ ⟨[⟨"/d/f.csv", [["a"]], 0⟩], []⟩
        initialState).toOption.map (fun p => p.1.map (fun q => q.1)) =
      some ["a", SDC_SOURCE_FILE_COLUMN, SDC_SOURCE_FILE_MTIME_COLUMN,
            SDC_SOURCE_LINENO_COLUMN] ∧
    (["a", SDC_SOURCE_FILE_COLUMN, SDC_SOURCE_FILE_MTIME_COLUMN,
      SDC_SOURCE_LINENO_COLUMN] : List String) ≠
      [SDC_SOURCE_FILE_COLUMN, SDC_SOURCE_FILE_MTIME_COLUMN,
       SDC_SOURCE_LINENO_COLUMN, "a"] := by
  exact ⟨by decide, by decide⟩

/-! ## Claim C3: DOUBLE columns are never cast -/

/-- C3: the code contradicts the specified coercion for DOUBLE columns.
For a column hinted `double`, the raw cell `"3.14"` parses as a float
(`_safe_cast` with `float` would succeed without the warning fallback), yet
the emitted record keeps the raw string: the schema serializes a double
column with JSON type `number`, while `_get_columns_by_type(schema,
"double")` searches the type lists for the literal `"double"`, so the
float-cast loop receives no columns at all. -/
theorem double_columns_never_cast :
    get_records ⟨false, [⟨"amount", "double"⟩]⟩ ⟨"/d/f.csv"⟩
        ⟨[⟨"/d/f.csv", [["amount"], ["3.14"]], 0⟩], []⟩ initialState =
      .ok ([[("amount", Value.str "3.14")]], ⟨["/d/f.csv"], ["amount"]⟩) ∧
    (_safe_cast_float (Value.str "3.14")).2 = false ∧
    schemaFromHeader ⟨false, [⟨"amount", "double"⟩]⟩ ["amount"] =
      [("amount", th_DoubleType)] ∧
    _get_columns_by_type [("amount", th_DoubleType)] "double" = [] := by
  refine ⟨by decide, by decide, by decide, by decide⟩

/-! ## Claim C8: the schema property is not cached -/

/-- C8 counterexample: a second access of the `schema` property with the
state left by the first access re-reads the current header of the first
file; when that header changed from `a` to `b`, the second access returns
a different schema instead of the cached first one. -/
theorem schema_not_cached_cex :
    schema ⟨false, []⟩ ⟨"/d/f.csv"⟩ ⟨[⟨"/d/f.csv", [["a"]], 0⟩], []⟩
        initialState =
      .ok ([("a", th_StringType)], ⟨["/d/f.csv"], ["a"]⟩) ∧
    schema ⟨false, []⟩ ⟨"/d/f.csv"⟩ ⟨[⟨"/d/f.csv", [["b"]], 0⟩], []⟩
        ⟨["/d/f.csv"], ["a"]⟩ =
      .ok ([("b", th_StringType)], ⟨["/d/f.csv"], ["b"]⟩) ∧
    ([("a", th_StringType)] : List (String × PropSchema)) ≠
      [("b", th_StringType)] := by
  refine ⟨by decide, by decide, by decide⟩

/-! ## Claim C6: when file resolution fails -/

/-- C6: on a fresh stream, file resolution raises exactly when the
configured path does not exist (the path-not-found error) or when it
resolves to zero eligible files (the no-eligible-files error, covering a
non-`.csv` single file and a directory without `.csv` files); and any such
error surfaces from `get_records` before any record is produced. -/
theorem file_resolution_error_iff (fc : FileConfig) (fs : FS)
    (st : StreamState) (hst : st.file_paths = []) :
    (get_file_paths fc fs st = .error .pathNotFound ↔
      fs.pathExists fc.path = false) ∧
    (get_file_paths fc fs st = .error .noEligibleFiles ↔
      fs.pathExists fc.path = true ∧ eligibleFiles fs fc.path = []) ∧
    ((∃ e, get_file_paths fc fs st = .error e) ↔
      (fs.pathExists fc.path = false ∨ eligibleFiles fs fc.path = [])) ∧
    (∀ e, get_file_paths fc fs st = .error e →
      ∀ cfg, get_records cfg fc fs st = .error e) := by
  have hmain : get_file_paths fc fs st =
      (if !(fs.pathExists fc.path) then .error .pathNotFound
       else if (eligibleFiles fs fc.path).isEmpty then .error .noEligibleFiles
       else .ok (eligibleFiles fs fc.path,
         { st with file_paths := eligibleFiles fs fc.path })) := by
    simp only [get_file_paths, hst, List.isEmpty_nil, if_true, computeFilePaths]
    cases hb : fs.pathExists fc.path with
    | false => simp
    | true =>
        cases he : (eligibleFiles fs fc.path).isEmpty with
        | false => simp
        | true => simp
  have hprop : ∀ e, get_file_paths fc fs st = .error e →
      ∀ cfg, get_records cfg fc fs st = .error e := by
    intro e he cfg
    simp only [get_records, schema, he]
  cases hb : fs.pathExists fc.path with
  | false =>
      refine ⟨?_, ?_, ?_, hprop⟩
      · simp [hmain, hb]
      · simp [hmain, hb]
      · simp [hmain, hb]
  | true =>
      cases he : (eligibleFiles fs fc.path).isEmpty with
      | false =>
          have he2 : eligibleFiles fs fc.path ≠ [] := by
            intro h0
            rw [h0] at he
            simp at he
          refine ⟨?_, ?_, ?_, hprop⟩
          · simp [hmain, hb, he]
          · simp [hmain, hb, he, he2]
          · simp [hmain, hb, he, he2]
      | true =>
          have he2 : eligibleFiles fs fc.path = [] := by
            simpa using he
          refine ⟨?_, ?_, ?_, hprop⟩
          · simp [hmain, hb, he]
          · simp [hmain, hb, he, he2]
          · exact ⟨fun _ => Or.inr he2, fun _ => ⟨.noEligibleFiles, by simp [hmain, hb, he]⟩⟩

/-- Witness for `file_resolution_error_iff`: a fresh stream over an empty
filesystem fails with the path-not-found error, and `get_records` surfaces
it with no records. -/
theorem file_resolution_error_iff_witness :
    get_file_paths ⟨"/nope"⟩ ⟨[], []⟩ initialState = .error .pathNotFound ∧
    get_records ⟨false, []⟩ ⟨"/nope"⟩ ⟨[], []⟩ initialState =
      .error .pathNotFound := by
  have h := file_resolution_error_iff ⟨"/nope"⟩ ⟨[], []⟩ initialState (by decide)
  have h1 : get_file_paths ⟨"/nope"⟩ ⟨[], []⟩ initialState =
      .error .pathNotFound := h.1.mpr (by decide)
  exact ⟨h1, h.2.2.2 .pathNotFound h1 ⟨false, []⟩⟩

/-! ## Claim C7: file resolution is memoized -/

/-- C7: once a fresh stream has resolved its file paths, every later call
returns the identical cached list and leaves the state unchanged, whatever
the filesystem now contains — the filesystem argument of the second call is
universally quantified, so no re-walk can be observed. -/
theorem file_paths_memoized (fc : FileConfig) (fs1 : FS) (st0 : StreamState)
    (l : List String) (st1 : StreamState) (h0 : st0.file_paths = [])
    (h : get_file_paths fc fs1 st0 = .ok (l, st1)) :
    ∀ fs2 : FS, get_file_paths fc fs2 st1 = .ok (l, st1) := by
  intro fs2
  rw [get_file_paths, h0] at h
  simp only [List.isEmpty_nil, if_true] at h
  cases hc : computeFilePaths fs1 fc.path with
  | error e => rw [hc] at h; exact absurd h (by simp)
  | ok fps =>
      rw [hc] at h
      have hl : fps = l ∧ { st0 with file_paths := fps } = st1 := by
        constructor
        · exact (Prod.mk.injEq _ _ _ _ ▸ (Except.ok.injEq _ _ ▸ h)).1
        · exact (Prod.mk.injEq _ _ _ _ ▸ (Except.ok.injEq _ _ ▸ h)).2
      have hne : fps.isEmpty = false := by
        rw [computeFilePaths] at hc
        split at hc
        · exact absurd hc (by simp)
        · split at hc
          · exact absurd hc (by simp)
          · rename_i hemp
            injection hc with hc2
            rw [← hc2]
            simpa using hemp
      obtain ⟨hfl, hst⟩ := hl
      subst hfl
      rw [get_file_paths]
      rw [← hst]
      simp [hne]

/-! ## Dictionary lemmas -/

theorem recGet_nil {α : Type} (k : String) : recGet ([] : List (String × α)) k = none := rfl

theorem recGet_cons_eq {α : Type} (p : String × α) (d : List (String × α))
    (k : String) (h : p.1 = k) : recGet (p :: d) k = some p.2 := by
  have hb : (fun q : String × α => q.1 == k) p = true := by simp [h]
  rw [recGet, @List.find?_cons_of_pos _ (fun q : String × α => q.1 == k) p d hb]
  rfl

theorem recGet_cons_ne {α : Type} (p : String × α) (d : List (String × α))
    (k : String) (h : p.1 ≠ k) : recGet (p :: d) k = recGet d k := by
  have hb : ¬ (fun q : String × α => q.1 == k) p = true := by simp [h]
  rw [recGet, @List.find?_cons_of_neg _ (fun q : String × α => q.1 == k) p d hb,
    recGet]

theorem recGet_mapUpdateF_ne {α : Type} (d : List (String × α)) (q k : String)
    (f : α → α) (h : q ≠ k) :
    recGet (d.map (fun p => if p.1 == q then (p.1, f p.2) else p)) k =
      recGet d k := by
  induction d with
  | nil => rfl
  | cons p rest ih =>
      rw [List.map_cons]
      have hkey : (if p.1 == q then (p.1, f p.2) else p).1 = p.1 := by
        split <;> rfl
      by_cases hp : p.1 = k
      · have hq : (p.1 == q) = false := by
          simp only [beq_eq_false_iff_ne]
          intro hc
          exact h (hc ▸ hp)
        rw [hq]
        simp only [Bool.false_eq_true, if_false]
        rw [recGet_cons_eq _ _ _ hp, recGet_cons_eq _ _ _ hp]
      · rw [recGet_cons_ne _ _ _ (by rw [hkey]; exact hp),
          recGet_cons_ne _ _ _ hp]
        exact ih

theorem recGet_mapUpdateF_eq {α : Type} (d : List (String × α)) (c : String)
    (f : α → α) (v : α) (h : recGet d c = some v) :
    recGet (d.map (fun p => if p.1 == c then (p.1, f p.2) else p)) c =
      some (f v) := by
  induction d with
  | nil => exact absurd h (by simp [recGet])
  | cons p rest ih =>
      rw [List.map_cons]
      by_cases hp : p.1 = c
      · have hb : (p.1 == c) = true := by simp [hp]
        rw [hb]
        simp only [if_true]
        rw [recGet_cons_eq p _ _ hp] at h
        rw [recGet_cons_eq (p.1, f p.2) _ _ hp]
        injection h with hv
        rw [hv]
      · have hb : (p.1 == c) = false := by simp [hp]
        rw [hb]
        simp only [Bool.false_eq_true, if_false]
        rw [recGet_cons_ne p _ _ hp] at h
        rw [recGet_cons_ne p _ _ hp]
        exact ih h

theorem recGet_append_single_ne {α : Type} (d : List (String × α))
    (q k : String) (v : α) (h : q ≠ k) :
    recGet (d ++ [(q, v)]) k = recGet d k := by
  induction d with
  | nil =>
      rw [List.nil_append, recGet_cons_ne _ _ _ h]
  | cons p rest ih =>
      rw [List.cons_append]
      by_cases hp : p.1 = k
      · rw [recGet_cons_eq _ _ _ hp, recGet_cons_eq _ _ _ hp]
      · rw [recGet_cons_ne _ _ _ hp, recGet_cons_ne _ _ _ hp]
        exact ih

theorem recGet_dictInsert_ne {α : Type} (d : List (String × α))
    (q k : String) (v : α) (h : q ≠ k) :
    recGet (dictInsert d q v) k = recGet d k := by
  rw [dictInsert]
  split
  · exact recGet_mapUpdateF_ne d q k (fun _ => v) h
  · exact recGet_append_single_ne d q k v h

theorem recGet_foldl_insert_of_fresh {α : Type} (kvs : List (String × α))
    (acc : List (String × α)) (k : String) (h : ∀ p ∈ kvs, p.1 ≠ k) :
    recGet (kvs.foldl (fun d p => dictInsert d p.1 p.2) acc) k =
      recGet acc k := by
  induction kvs generalizing acc with
  | nil => rfl
  | cons p rest ih =>
      rw [List.foldl_cons]
      rw [ih _ (fun q hq => h q (List.mem_cons_of_mem _ hq))]
      exact recGet_dictInsert_ne _ _ _ _ (h p (List.mem_cons_self _ _))

theorem mem_dictInsert {α : Type} (p : String × α) (d : List (String × α))
    (k : String) (v : α) (h : p ∈ dictInsert d k v) : p ∈ d ∨ p = (k, v) := by
  rw [dictInsert] at h
  split at h
  · obtain ⟨q, hq, heq⟩ := List.mem_map.mp h
    by_cases hk : q.1 = k
    · right
      have hb : (q.1 == k) = true := by simp [hk]
      rw [hb] at heq
      simp only [if_true] at heq
      rw [← heq, hk]
    · left
      have hb : (q.1 == k) = false := by simp [hk]
      rw [hb] at heq
      simp only [Bool.false_eq_true, if_false] at heq
      rw [← heq]
      exact hq
  · rcases List.mem_append.mp h with h1 | h2
    · exact Or.inl h1
    · right
      simpa using h2

theorem mem_foldl_insert {α : Type} (kvs : List (String × α))
    (acc : List (String × α)) (p : String × α)
    (h : p ∈ kvs.foldl (fun d q => dictInsert d q.1 q.2) acc) :
    p ∈ acc ∨ p ∈ kvs := by
  induction kvs generalizing acc with
  | nil => exact Or.inl h
  | cons q rest ih =>
      rw [List.foldl_cons] at h
      rcases ih _ h with h1 | h2
      · rcases mem_dictInsert p acc q.1 q.2 h1 with h3 | h4
        · exact Or.inl h3
        · right
          rw [h4]
          exact List.mem_cons_self _ _
      · exact Or.inr (List.mem_cons_of_mem _ h2)

theorem foldl_insert_append_fresh {α : Type} (kvs : List (String × α)) :
    ∀ acc : List (String × α),
      (∀ p ∈ kvs, ∀ q ∈ acc, q.1 ≠ p.1) → ((kvs.map Prod.fst).Nodup) →
      kvs.foldl (fun d q => dictInsert d q.1 q.2) acc = acc ++ kvs := by
  induction kvs with
  | nil => intro acc _ _; simp
  | cons p rest ih =>
      intro acc hfresh hnd
      rw [List.foldl_cons]
      have hins : dictInsert acc p.1 p.2 = acc ++ [p] := by
        rw [dictInsert]
        have hany : acc.any (fun q => q.1 == p.1) = false := by
          rw [List.any_eq_false]
          intro q hq
          simp only [Bool.not_eq_true, beq_eq_false_iff_ne]
          exact hfresh p (List.mem_cons_self _ _) q hq
        rw [hany]
        simp only [Bool.false_eq_true, if_false]
      rw [hins]
      rw [List.map_cons, List.nodup_cons] at hnd
      rw [ih (acc ++ [p]) ?_ hnd.2]
      · rw [List.append_assoc, List.singleton_append]
      · intro r hr q hq
        rcases List.mem_append.mp hq with h1 | h2
        · exact hfresh r (List.mem_cons_of_mem _ hr) q h1
        · have : q = p := by simpa using h2
          rw [this]
          intro hc
          exact hnd.1 (hc ▸ List.mem_map_of_mem Prod.fst hr)

theorem dictOfPairs_eq_self {α : Type} (l : List (String × α))
    (hnd : (l.map Prod.fst).Nodup) : dictOfPairs l = l := by
  rw [dictOfPairs, foldl_insert_append_fresh l [] (by simp) hnd,
    List.nil_append]

theorem recGet_eq_none_of_fresh {α : Type} (d : List (String × α)) (k : String)
    (h : ∀ p ∈ d, p.1 ≠ k) : recGet d k = none := by
  induction d with
  | nil => rfl
  | cons p rest ih =>
      rw [recGet_cons_ne _ _ _ (h p (List.mem_cons_self _ _))]
      exact ih (fun q hq => h q (List.mem_cons_of_mem _ hq))

/-! ## Schema-structure lemmas -/

theorem propOfColumn_key (cm : List Mapping) (c : String)
    (p : String × PropSchema) (h : propOfColumn cm c = some p) : p.1 = c := by
  rw [propOfColumn] at h
  split at h
  · split_ifs at h <;> (injection h with h2; rw [← h2])
  · injection h with h2
    rw [← h2]

theorem mem_schemaProperties (cm : List Mapping) (hdr : List String)
    (p : String × PropSchema) (h : p ∈ schemaProperties cm hdr) :
    p.1 ∈ hdr ∧ (p.2 = th_DateType ∨ p.2 = th_IntegerType ∨
      p.2 = th_DoubleType ∨ p.2 = th_StringType) := by
  rw [schemaProperties] at h
  obtain ⟨c, hc, hpc⟩ := List.mem_filterMap.mp h
  constructor
  · rw [propOfColumn_key cm c p hpc]
    exact hc
  · rw [propOfColumn] at hpc
    split at hpc
    · split_ifs at hpc <;> (injection hpc with h2; rw [← h2])
      · left; rfl
      · right; left; rfl
      · right; right; left; rfl
      · right; right; right; rfl
    · injection hpc with h2
      rw [← h2]
      right; right; right; rfl

theorem mem_schemaFromHeader (cfg : Config) (hdr : List String)
    (p : String × PropSchema) (h : p ∈ schemaFromHeader cfg hdr) :
    p ∈ schemaProperties cfg.custom_mappings hdr ∨ p ∈ metaProperties := by
  rw [schemaFromHeader] at h
  rcases mem_foldl_insert _ _ _ h with h1 | h2
  · exact absurd h1 (List.not_mem_nil p)
  · rcases List.mem_append.mp h2 with h3 | h4
    · exact Or.inl h3
    · cases hm : cfg.add_metadata_columns with
      | true => rw [hm] at h4; simp only [if_true] at h4; exact Or.inr h4
      | false =>
          rw [hm] at h4
          simp only [Bool.false_eq_true, if_false] at h4
          exact absurd h4 (List.not_mem_nil p)

theorem mem_metaProperties (p : String × PropSchema) (h : p ∈ metaProperties) :
    p = (SDC_SOURCE_FILE_COLUMN, th_StringType) ∨
    p = (SDC_SOURCE_FILE_MTIME_COLUMN, th_DateTimeType) ∨
    p = (SDC_SOURCE_LINENO_COLUMN, th_IntegerType) := by
  rw [metaProperties] at h
  rcases List.mem_cons.mp h with h1 | h2
  · exact Or.inl h1
  · rcases List.mem_cons.mp h2 with h3 | h4
    · exact Or.inr (Or.inl h3)
    · right; right
      simpa using h4

/-- Every property the schema can carry has one of the five modelled
serializations; none of them mentions the literal `double` in its type
list. -/
theorem schemaFromHeader_types (cfg : Config) (hdr : List String)
    (p : String × PropSchema) (h : p ∈ schemaFromHeader cfg hdr) :
    p.2 = th_DateType ∨ p.2 = th_IntegerType ∨ p.2 = th_DoubleType ∨
      p.2 = th_StringType ∨ p.2 = th_DateTimeType := by
  rcases mem_schemaFromHeader cfg hdr p h with h1 | h2
  · rcases (mem_schemaProperties _ _ _ h1).2 with h3 | h3 | h3 | h3
    · exact Or.inl h3
    · exact Or.inr (Or.inl h3)
    · exact Or.inr (Or.inr (Or.inl h3))
    · exact Or.inr (Or.inr (Or.inr (Or.inl h3)))
  · rcases mem_metaProperties p h2 with h3 | h3 | h3
    · rw [h3]; right; right; right; left; rfl
    · rw [h3]; right; right; right; right; rfl
    · rw [h3]; right; left; rfl

/-- The float-cast loop never receives a column: no schema property's type
list contains the literal `double` (a DOUBLE column serializes as
`number`), so `_get_columns_by_type(schema, "double")` is always empty. -/
theorem double_columns_nil (cfg : Config) (hdr : List String) :
    _get_columns_by_type (schemaFromHeader cfg hdr) "double" = [] := by
  rw [_get_columns_by_type, List.filterMap_eq_nil_iff]
  intro p hp
  rcases schemaFromHeader_types cfg hdr p hp with h | h | h | h | h <;>
    (rw [h]; rfl)

theorem mem_get_columns_by_type (D : List (String × PropSchema)) (ty k : String) :
    k ∈ _get_columns_by_type D ty ↔
      ∃ ps, (k, ps) ∈ D ∧ ps.type.contains ty = true := by
  rw [_get_columns_by_type]
  constructor
  · intro h
    obtain ⟨p, hp, hpk⟩ := List.mem_filterMap.mp h
    by_cases hc : p.2.type.contains ty = true
    · rw [if_pos hc] at hpk
      injection hpk with h2
      exact ⟨p.2, by rw [← h2]; exact hp, hc⟩
    · rw [if_neg hc] at hpk
      exact absurd hpk (by simp)
  · intro ⟨ps, hmem, hc⟩
    exact List.mem_filterMap.mpr ⟨(k, ps), hmem, by rw [if_pos hc]⟩

theorem mem_get_date_columns (D : List (String × PropSchema)) (k : String) :
    k ∈ _get_date_columns D ↔
      ∃ ps, (k, ps) ∈ D ∧
        (ps.type.contains "string" && (ps.format == some "date")) = true := by
  rw [_get_date_columns]
  constructor
  · intro h
    obtain ⟨p, hp, hpk⟩ := List.mem_filterMap.mp h
    by_cases hc : (p.2.type.contains "string" && (p.2.format == some "date")) = true
    · rw [if_pos hc] at hpk
      injection hpk with h2
      exact ⟨p.2, by rw [← h2]; exact hp, hc⟩
    · rw [if_neg hc] at hpk
      exact absurd hpk (by simp)
  · intro ⟨ps, hmem, hc⟩
    exact List.mem_filterMap.mpr ⟨(k, ps), hmem, by rw [if_pos hc]⟩

/-! ## Transformation-fold lemmas -/

theorem recGet_updateCol_ne (d : List (String × Value)) (c k : String)
    (f : Value → Value) (h : c ≠ k) :
    recGet (updateCol d c f) k = recGet d k := by
  rw [updateCol]
  split
  · exact recGet_mapUpdateF_ne d c k f h
  · rfl

theorem recGet_updateCol_eq (d : List (String × Value)) (c : String)
    (f : Value → Value) (v : Value) (h : recGet d c = some v) :
    recGet (updateCol d c f) c = some (f v) := by
  rw [updateCol]
  have hany : d.any (fun p => p.1 == c) = true := by
    cases hb : d.any (fun p => p.1 == c) with
    | true => rfl
    | false =>
        have hnone : recGet d c = none := by
          refine recGet_eq_none_of_fresh d c ?_
          intro p hp
          have := List.any_eq_false.mp hb p hp
          simpa using this
        rw [hnone] at h
        exact absurd h (by simp)
  rw [if_pos hany]
  exact recGet_mapUpdateF_eq d c f v h

theorem recGet_foldl_updateCol_not_mem (cols : List String)
    (d : List (String × Value)) (k : String) (f : Value → Value)
    (h : k ∉ cols) :
    recGet (cols.foldl (fun acc c => updateCol acc c f) d) k = recGet d k := by
  induction cols generalizing d with
  | nil => rfl
  | cons c rest ih =>
      rw [List.foldl_cons]
      rw [ih _ (fun hk => h (List.mem_cons_of_mem _ hk))]
      exact recGet_updateCol_ne d c k f
        (fun hc => h (hc ▸ List.mem_cons_self _ _))

theorem recGet_foldl_updateCol_fixed (cols : List String)
    (d : List (String × Value)) (k : String) (f : Value → Value) (v : Value)
    (hv : recGet d k = some v) (hf : f v = v) :
    recGet (cols.foldl (fun acc c => updateCol acc c f) d) k = some v := by
  induction cols generalizing d with
  | nil => exact hv
  | cons c rest ih =>
      rw [List.foldl_cons]
      by_cases hc : c = k
      · subst hc
        refine ih _ ?_
        rw [recGet_updateCol_eq d c f v hv, hf]
      · refine ih _ ?_
        rw [recGet_updateCol_ne d c k f hc]
        exact hv

/-! ## Zip lemmas (`dict(zip(header, row))`) -/

theorem map_fst_zip_sublist {α : Type} :
    ∀ (ks : List String) (vs : List α),
      ((ks.zip vs).map Prod.fst).Sublist ks := by
  intro ks
  induction ks with
  | nil => intro vs; simp
  | cons k rest ih =>
      intro vs
      cases vs with
      | nil => simp
      | cons v vtail =>
          rw [List.zip_cons_cons, List.map_cons]
          exact List.Sublist.cons₂ k (ih vtail)

theorem recGet_zip_get {α : Type} :
    ∀ (ks : List String) (vs : List α) (i : Nat) (hk : i < ks.length)
      (hv : i < vs.length), ks.Nodup →
      recGet (ks.zip vs) ks[i] = some vs[i] := by
  intro ks
  induction ks with
  | nil => intro vs i hk; exact absurd hk (by simp)
  | cons k rest ih =>
      intro vs i hk hv hnd
      cases vs with
      | nil => exact absurd hv (by simp)
      | cons v vtail =>
          rw [List.zip_cons_cons]
          cases i with
          | zero =>
              simp only [List.getElem_cons_zero]
              rw [recGet_cons_eq (k, v) _ _ rfl]
          | succ j =>
              simp only [List.getElem_cons_succ]
              have hrest := (List.nodup_cons.mp hnd).2
              have hk2 : k ∉ rest := (List.nodup_cons.mp hnd).1
              have hj : j < rest.length := by simpa using hk
              have hne : k ≠ rest[j] := by
                intro hc
                exact hk2 (hc ▸ List.getElem_mem hj)
              rw [recGet_cons_ne (k, v) _ _ hne]
              exact ih vtail j hj (by simpa using hv) hrest

theorem recGet_zip_none {α : Type} :
    ∀ (ks : List String) (vs : List α) (i : Nat) (hk : i < ks.length),
      ks.Nodup → vs.length ≤ i →
      recGet (ks.zip vs) ks[i] = none := by
  intro ks
  induction ks with
  | nil => intro vs i hk; exact absurd hk (by simp)
  | cons k rest ih =>
      intro vs i hk hnd hv
      cases vs with
      | nil => rw [List.zip_nil_right]; rfl
      | cons v vtail =>
          rw [List.zip_cons_cons]
          cases i with
          | zero => exact absurd hv (by simp)
          | succ j =>
              simp only [List.getElem_cons_succ]
              have hk2 : k ∉ rest := (List.nodup_cons.mp hnd).1
              have hj : j < rest.length := by simpa using hk
              have hne : k ≠ rest[j] := by
                intro hc
                exact hk2 (hc ▸ List.getElem_mem hj)
              rw [recGet_cons_ne (k, v) _ _ hne]
              exact ih vtail j hj (List.nodup_cons.mp hnd).2 (by simpa using hv)

/-! ## Claim C10: mismatched row lengths -/

/-- C10: building a record from a data row whose field count differs from
the header never fails: `dict(zip(header, row))` pairs fields with column
names positionally up to the shorter length, so surplus row fields are
dropped (the record has `min` length) and columns beyond the row's length
are absent from the record (their lookup is `none`). -/
theorem row_zip_truncation (hdr row : List String) (hnd : hdr.Nodup) :
    (dictOfZip hdr (row.map Value.str)).length = min hdr.length row.length ∧
    (∀ i (h1 : i < hdr.length) (h2 : i < row.length),
      recGet (dictOfZip hdr (row.map Value.str)) hdr[i] =
        some (Value.str row[i])) ∧
    (∀ i (h1 : i < hdr.length), row.length ≤ i →
      recGet (dictOfZip hdr (row.map Value.str)) hdr[i] = none) := by
  have hdz : dictOfZip hdr (row.map Value.str) = hdr.zip (row.map Value.str) := by
    rw [dictOfZip]
    exact dictOfPairs_eq_self _ ((map_fst_zip_sublist hdr _).nodup hnd)
  refine ⟨?_, ?_, ?_⟩
  · rw [hdz, List.length_zip, List.length_map]
  · intro i h1 h2
    rw [hdz]
    have hv : i < (row.map Value.str).length := by simpa using h2
    rw [recGet_zip_get hdr (row.map Value.str) i h1 hv hnd]
    rw [List.getElem_map]
  · intro i h1 h2
    rw [hdz]
    exact recGet_zip_none hdr (row.map Value.str) i h1 hnd (by simpa using h2)

/-- Witness for `row_zip_truncation`: header `a,b,c` against the one-field
row `1` keeps only `a` and leaves `b` absent. -/
theorem row_zip_truncation_witness :
    (dictOfZip ["a", "b", "c"] (["1"].map Value.str)).length = 1 ∧
    recGet (dictOfZip ["a", "b", "c"] (["1"].map Value.str)) "a" =
      some (Value.str "1") ∧
    recGet (dictOfZip ["a", "b", "c"] (["1"].map Value.str)) "b" = none := by
  have h := row_zip_truncation ["a", "b", "c"] ["1"] (by decide)
  exact ⟨h.1, h.2.1 0 (by decide) (by decide), h.2.2 1 (by decide) (by decide)⟩

/-- Witness for `file_paths_memoized`: after the first resolution the file
is deleted from the filesystem, yet the second call still returns the
cached list. -/
theorem file_paths_memoized_witness :
    get_file_paths ⟨"/d/f.csv"⟩ ⟨[⟨"/d/f.csv", [], 0⟩], []⟩ initialState =
      .ok (["/d/f.csv"], ⟨["/d/f.csv"], []⟩) ∧
    get_file_paths ⟨"/d/f.csv"⟩ ⟨[], []⟩ ⟨["/d/f.csv"], []⟩ =
      .ok (["/d/f.csv"], ⟨["/d/f.csv"], []⟩) := by
  have h1 : get_file_paths ⟨"/d/f.csv"⟩ ⟨[⟨"/d/f.csv", [], 0⟩], []⟩
      initialState = .ok (["/d/f.csv"], ⟨["/d/f.csv"], []⟩) := by decide
  exact ⟨h1, file_paths_memoized ⟨"/d/f.csv"⟩ ⟨[⟨"/d/f.csv", [], 0⟩], []⟩
    initialState ["/d/f.csv"] ⟨["/d/f.csv"], []⟩ rfl h1 ⟨[], []⟩⟩

/-! ## Metadata-column lemmas -/

theorem schemaFromHeader_meta_decomp (cm : List Mapping) (hdr : List String)
    (hF : SDC_SOURCE_FILE_COLUMN ∉ hdr) (hM : SDC_SOURCE_FILE_MTIME_COLUMN ∉ hdr)
    (hL : SDC_SOURCE_LINENO_COLUMN ∉ hdr) :
    schemaFromHeader ⟨true, cm⟩ hdr =
      dictOfPairs (schemaProperties cm hdr) ++ metaProperties := by
  show dictOfPairs (schemaProperties cm hdr ++ metaProperties) = _
  rw [dictOfPairs, List.foldl_append, ← dictOfPairs]
  refine foldl_insert_append_fresh metaProperties _ ?_ (by decide)
  intro p hp q hq
  have hq2 : q ∈ schemaProperties cm hdr := by
    rcases mem_foldl_insert _ _ _ hq with h1 | h2
    · exact absurd h1 (List.not_mem_nil q)
    · exact h2
  have hkey : q.1 ∈ hdr := (mem_schemaProperties _ _ _ hq2).1
  rcases mem_metaProperties p hp with h | h | h <;> rw [h] <;> intro hc
  · exact hF ((show q.1 = SDC_SOURCE_FILE_COLUMN from hc) ▸ hkey)
  · exact hM ((show q.1 = SDC_SOURCE_FILE_MTIME_COLUMN from hc) ▸ hkey)
  · exact hL ((show q.1 = SDC_SOURCE_LINENO_COLUMN from hc) ▸ hkey)

theorem lineno_mem_int_cols (cm : List Mapping) (hdr : List String)
    (hF : SDC_SOURCE_FILE_COLUMN ∉ hdr) (hM : SDC_SOURCE_FILE_MTIME_COLUMN ∉ hdr)
    (hL : SDC_SOURCE_LINENO_COLUMN ∉ hdr) :
    SDC_SOURCE_LINENO_COLUMN ∈
      _get_columns_by_type (schemaFromHeader ⟨true, cm⟩ hdr) "integer" := by
  rw [mem_get_columns_by_type]
  refine ⟨th_IntegerType, ?_, by decide⟩
  rw [schemaFromHeader_meta_decomp cm hdr hF hM hL]
  refine List.mem_append_right _ ?_
  rw [metaProperties]
  exact List.mem_cons_of_mem _ (List.mem_cons_of_mem _ (List.mem_cons_self _ _))

theorem lineno_entry_unique (cm : List Mapping) (hdr : List String)
    (hL : SDC_SOURCE_LINENO_COLUMN ∉ hdr) (ps : PropSchema)
    (h : (SDC_SOURCE_LINENO_COLUMN, ps) ∈ schemaFromHeader ⟨true, cm⟩ hdr) :
    ps = th_IntegerType := by
  rcases mem_schemaFromHeader _ _ _ h with h1 | h2
  · exact absurd (mem_schemaProperties _ _ _ h1).1 hL
  · rcases mem_metaProperties _ h2 with h3 | h3 | h3
    · exact absurd (show SDC_SOURCE_LINENO_COLUMN = SDC_SOURCE_FILE_COLUMN from
        congrArg Prod.fst h3) (by decide)
    · exact absurd (show SDC_SOURCE_LINENO_COLUMN = SDC_SOURCE_FILE_MTIME_COLUMN from
        congrArg Prod.fst h3) (by decide)
    · simpa using h3

theorem file_entry_unique (cm : List Mapping) (hdr : List String)
    (hF : SDC_SOURCE_FILE_COLUMN ∉ hdr) (ps : PropSchema)
    (h : (SDC_SOURCE_FILE_COLUMN, ps) ∈ schemaFromHeader ⟨true, cm⟩ hdr) :
    ps = th_StringType := by
  rcases mem_schemaFromHeader _ _ _ h with h1 | h2
  · exact absurd (mem_schemaProperties _ _ _ h1).1 hF
  · rcases mem_metaProperties _ h2 with h3 | h3 | h3
    · simpa using h3
    · exact absurd (show SDC_SOURCE_FILE_COLUMN = SDC_SOURCE_FILE_MTIME_COLUMN from
        congrArg Prod.fst h3) (by decide)
    · exact absurd (show SDC_SOURCE_FILE_COLUMN = SDC_SOURCE_LINENO_COLUMN from
        congrArg Prod.fst h3) (by decide)

theorem lineno_not_mem_date_cols (cm : List Mapping) (hdr : List String)
    (hL : SDC_SOURCE_LINENO_COLUMN ∉ hdr) :
    SDC_SOURCE_LINENO_COLUMN ∉
      _get_date_columns (schemaFromHeader ⟨true, cm⟩ hdr) := by
  intro hmem
  obtain ⟨ps, hps, hcond⟩ := (mem_get_date_columns _ _).mp hmem
  rw [lineno_entry_unique cm hdr hL ps hps] at hcond
  exact absurd hcond (by decide)

theorem lineno_not_mem_string_cols (cm : List Mapping) (hdr : List String)
    (hL : SDC_SOURCE_LINENO_COLUMN ∉ hdr) :
    SDC_SOURCE_LINENO_COLUMN ∉
      _get_columns_by_type (schemaFromHeader ⟨true, cm⟩ hdr) "string" := by
  intro hmem
  obtain ⟨ps, hps, hcond⟩ := (mem_get_columns_by_type _ _ _).mp hmem
  rw [lineno_entry_unique cm hdr hL ps hps] at hcond
  exact absurd hcond (by decide)

theorem file_not_mem_date_cols (cm : List Mapping) (hdr : List String)
    (hF : SDC_SOURCE_FILE_COLUMN ∉ hdr) :
    SDC_SOURCE_FILE_COLUMN ∉
      _get_date_columns (schemaFromHeader ⟨true, cm⟩ hdr) := by
  intro hmem
  obtain ⟨ps, hps, hcond⟩ := (mem_get_date_columns _ _).mp hmem
  rw [file_entry_unique cm hdr hF ps hps] at hcond
  exact absurd hcond (by decide)

theorem file_not_mem_int_cols (cm : List Mapping) (hdr : List String)
    (hF : SDC_SOURCE_FILE_COLUMN ∉ hdr) :
    SDC_SOURCE_FILE_COLUMN ∉
      _get_columns_by_type (schemaFromHeader ⟨true, cm⟩ hdr) "integer" := by
  intro hmem
  obtain ⟨ps, hps, hcond⟩ := (mem_get_columns_by_type _ _ _).mp hmem
  rw [file_entry_unique cm hdr hF ps hps] at hcond
  exact absurd hcond (by decide)

theorem recGet_metaDict_lineno (vF vM vL : Value)
    (tail : List (String × Value))
    (htail : ∀ p ∈ tail, p.1 ≠ SDC_SOURCE_LINENO_COLUMN) :
    recGet (dictOfPairs ((SDC_SOURCE_FILE_COLUMN, vF) ::
        (SDC_SOURCE_FILE_MTIME_COLUMN, vM) ::
        (SDC_SOURCE_LINENO_COLUMN, vL) :: tail)) SDC_SOURCE_LINENO_COLUMN =
      some vL := by
  have hFM : (SDC_SOURCE_FILE_COLUMN == SDC_SOURCE_FILE_MTIME_COLUMN) = false := by decide
  have hFL : (SDC_SOURCE_FILE_COLUMN == SDC_SOURCE_LINENO_COLUMN) = false := by decide
  have hML : (SDC_SOURCE_FILE_MTIME_COLUMN == SDC_SOURCE_LINENO_COLUMN) = false := by decide
  rw [dictOfPairs, List.foldl_cons, List.foldl_cons, List.foldl_cons]
  have hacc : dictInsert (dictInsert (dictInsert []
      SDC_SOURCE_FILE_COLUMN vF) SDC_SOURCE_FILE_MTIME_COLUMN vM)
      SDC_SOURCE_LINENO_COLUMN vL =
      [(SDC_SOURCE_FILE_COLUMN, vF), (SDC_SOURCE_FILE_MTIME_COLUMN, vM),
       (SDC_SOURCE_LINENO_COLUMN, vL)] := by
    simp [dictInsert, hFM, hFL, hML]
  rw [hacc, recGet_foldl_insert_of_fresh tail _ _ htail]
  rw [recGet_cons_ne _ _ _ (show SDC_SOURCE_FILE_COLUMN ≠
    SDC_SOURCE_LINENO_COLUMN by decide)]
  rw [recGet_cons_ne _ _ _ (show SDC_SOURCE_FILE_MTIME_COLUMN ≠
    SDC_SOURCE_LINENO_COLUMN by decide)]
  rw [recGet_cons_eq _ _ _ rfl]

theorem recGet_metaDict_file (vF vM vL : Value)
    (tail : List (String × Value))
    (htail : ∀ p ∈ tail, p.1 ≠ SDC_SOURCE_FILE_COLUMN) :
    recGet (dictOfPairs ((SDC_SOURCE_FILE_COLUMN, vF) ::
        (SDC_SOURCE_FILE_MTIME_COLUMN, vM) ::
        (SDC_SOURCE_LINENO_COLUMN, vL) :: tail)) SDC_SOURCE_FILE_COLUMN =
      some vF := by
  have hFM : (SDC_SOURCE_FILE_COLUMN == SDC_SOURCE_FILE_MTIME_COLUMN) = false := by decide
  have hFL : (SDC_SOURCE_FILE_COLUMN == SDC_SOURCE_LINENO_COLUMN) = false := by decide
  have hML : (SDC_SOURCE_FILE_MTIME_COLUMN == SDC_SOURCE_LINENO_COLUMN) = false := by decide
  rw [dictOfPairs, List.foldl_cons, List.foldl_cons, List.foldl_cons]
  have hacc : dictInsert (dictInsert (dictInsert []
      SDC_SOURCE_FILE_COLUMN vF) SDC_SOURCE_FILE_MTIME_COLUMN vM)
      SDC_SOURCE_LINENO_COLUMN vL =
      [(SDC_SOURCE_FILE_COLUMN, vF), (SDC_SOURCE_FILE_MTIME_COLUMN, vM),
       (SDC_SOURCE_LINENO_COLUMN, vL)] := by
    simp [dictInsert, hFM, hFL, hML]
  rw [hacc, recGet_foldl_insert_of_fresh tail _ _ htail]
  rw [recGet_cons_eq _ _ _ rfl]

/-- The metadata-extended row record carries the line number it was built
with under `_sdc_source_lineno`, for any raw row. -/
theorem rowRecord_get_lineno (cfg : Config)
    (hmeta : cfg.add_metadata_columns = true) (hdr : List String)
    (hL : SDC_SOURCE_LINENO_COLUMN ∉ hdr) (dc ic oc sc : List String)
    (hdc : SDC_SOURCE_LINENO_COLUMN ∉ dc) (hoc : oc = [])
    (hsc : SDC_SOURCE_LINENO_COLUMN ∉ sc)
    (path : String) (mtime : Nat) (l : Int) (row : List String) :
    recGet (rowRecord cfg (SDC_SOURCE_FILE_COLUMN ::
        SDC_SOURCE_FILE_MTIME_COLUMN :: SDC_SOURCE_LINENO_COLUMN :: hdr)
        dc ic oc sc path mtime l row) SDC_SOURCE_LINENO_COLUMN =
      some (Value.int l) := by
  rw [rowRecord]
  simp only [hmeta, if_true]
  rw [_apply_transformations, hoc, List.foldl_nil]
  rw [recGet_foldl_updateCol_not_mem _ _ _ _ hsc]
  refine recGet_foldl_updateCol_fixed _ _ _ _ _ ?_ rfl
  rw [recGet_foldl_updateCol_not_mem _ _ _ _ hdc]
  rw [dictOfZip, List.zip_cons_cons, List.zip_cons_cons, List.zip_cons_cons]
  refine recGet_metaDict_lineno _ _ _ _ ?_
  intro p hp hc
  exact hL (hc ▸ (List.of_mem_zip hp).1)

/-- The metadata-extended row record carries the source path it was built
with under `_sdc_source_file`, for any raw row. -/
theorem rowRecord_get_file (cfg : Config)
    (hmeta : cfg.add_metadata_columns = true) (hdr : List String)
    (hF : SDC_SOURCE_FILE_COLUMN ∉ hdr) (dc ic oc sc : List String)
    (hdc : SDC_SOURCE_FILE_COLUMN ∉ dc) (hic : SDC_SOURCE_FILE_COLUMN ∉ ic)
    (hoc : oc = [])
    (path : String) (mtime : Nat) (l : Int) (row : List String) :
    recGet (rowRecord cfg (SDC_SOURCE_FILE_COLUMN ::
        SDC_SOURCE_FILE_MTIME_COLUMN :: SDC_SOURCE_LINENO_COLUMN :: hdr)
        dc ic oc sc path mtime l row) SDC_SOURCE_FILE_COLUMN =
      some (Value.str path) := by
  rw [rowRecord]
  simp only [hmeta, if_true]
  rw [_apply_transformations, hoc, List.foldl_nil]
  refine recGet_foldl_updateCol_fixed _ _ _ _ _ ?_ rfl
  rw [recGet_foldl_updateCol_not_mem _ _ _ _ hic]
  rw [recGet_foldl_updateCol_not_mem _ _ _ _ hdc]
  rw [dictOfZip, List.zip_cons_cons, List.zip_cons_cons, List.zip_cons_cons]
  refine recGet_metaDict_file _ _ _ _ ?_
  intro p hp hc
  exact hF (hc ▸ (List.of_mem_zip hp).1)

/-! ## Row-loop lemmas -/

theorem processRows_cons (cfg : Config) (H : List String)
    (dc ic oc sc : List String) (path : String) (mtime : Nat) (l : Int)
    (row : List String) (rest : List (List String)) :
    processRows cfg H dc ic oc sc path mtime l (row :: rest) =
      if (l + 1 == 0) then processRows cfg H dc ic oc sc path mtime (l + 1) rest
      else rowRecord cfg H dc ic oc sc path mtime (l + 1) row ::
        processRows cfg H dc ic oc sc path mtime (l + 1) rest := rfl

theorem processRows_length (cfg : Config) (H : List String)
    (dc ic oc sc : List String) (path : String) (mtime : Nat) :
    ∀ (rows : List (List String)) (l : Int), 0 ≤ l →
      (processRows cfg H dc ic oc sc path mtime l rows).length = rows.length := by
  intro rows
  induction rows with
  | nil => intro l _; rfl
  | cons row rest ih =>
      intro l hl
      rw [processRows_cons]
      have hne : (l + 1 == 0) = false := by
        simp only [beq_eq_false_iff_ne]
        omega
      rw [hne]
      simp only [Bool.false_eq_true, if_false, List.length_cons]
      rw [ih (l + 1) (by omega)]

theorem processRows_get_file (cfg : Config)
    (hmeta : cfg.add_metadata_columns = true) (hdr : List String)
    (hF : SDC_SOURCE_FILE_COLUMN ∉ hdr) (dc ic oc sc : List String)
    (hdc : SDC_SOURCE_FILE_COLUMN ∉ dc) (hic : SDC_SOURCE_FILE_COLUMN ∉ ic)
    (hoc : oc = []) (path : String) (mtime : Nat) :
    ∀ (rows : List (List String)) (l : Int),
      ∀ r ∈ processRows cfg (SDC_SOURCE_FILE_COLUMN ::
          SDC_SOURCE_FILE_MTIME_COLUMN :: SDC_SOURCE_LINENO_COLUMN :: hdr)
          dc ic oc sc path mtime l rows,
        recGet r SDC_SOURCE_FILE_COLUMN = some (Value.str path) := by
  intro rows
  induction rows with
  | nil => intro l r hr; exact absurd hr (List.not_mem_nil r)
  | cons row rest ih =>
      intro l r hr
      rw [processRows_cons] at hr
      by_cases h0 : (l + 1 == 0) = true
      · rw [if_pos h0] at hr
        exact ih (l + 1) r hr
      · rw [if_neg h0] at hr
        rcases List.mem_cons.mp hr with h1 | h2
        · rw [h1]
          exact rowRecord_get_file cfg hmeta hdr hF dc ic oc sc hdc hic hoc
            path mtime (l + 1) row
        · exact ih (l + 1) r h2

theorem processRows_get_lineno (cfg : Config)
    (hmeta : cfg.add_metadata_columns = true) (hdr : List String)
    (hL : SDC_SOURCE_LINENO_COLUMN ∉ hdr) (dc ic oc sc : List String)
    (hdc : SDC_SOURCE_LINENO_COLUMN ∉ dc) (hoc : oc = [])
    (hsc : SDC_SOURCE_LINENO_COLUMN ∉ sc) (path : String) (mtime : Nat) :
    ∀ (rows : List (List String)) (l : Int), 0 ≤ l →
      ∀ (i : Nat) (hi : i < (processRows cfg (SDC_SOURCE_FILE_COLUMN ::
          SDC_SOURCE_FILE_MTIME_COLUMN :: SDC_SOURCE_LINENO_COLUMN :: hdr)
          dc ic oc sc path mtime l rows).length),
        recGet ((processRows cfg (SDC_SOURCE_FILE_COLUMN ::
            SDC_SOURCE_FILE_MTIME_COLUMN :: SDC_SOURCE_LINENO_COLUMN :: hdr)
            dc ic oc sc path mtime l rows)[i])
          SDC_SOURCE_LINENO_COLUMN = some (Value.int (l + 1 + i)) := by
  intro rows
  induction rows with
  | nil => intro l _ i hi; exact absurd hi (by simp [processRows])
  | cons row rest ih =>
      intro l hl i hi
      have hne : (l + 1 == 0) = false := by
        simp only [beq_eq_false_iff_ne]
        omega
      rw [processRows_cons] at hi
      rw [hne] at hi
      simp only [Bool.false_eq_true, if_false] at hi
      simp only [processRows_cons, hne, Bool.false_eq_true, if_false]
      cases i with
      | zero =>
          simp only [List.getElem_cons_zero]
          have := rowRecord_get_lineno cfg hmeta hdr hL dc ic oc sc hdc hoc
            hsc path mtime (l + 1) row
          simpa using this
      | succ j =>
          simp only [List.getElem_cons_succ]
          have hj : j < (processRows cfg (SDC_SOURCE_FILE_COLUMN ::
              SDC_SOURCE_FILE_MTIME_COLUMN :: SDC_SOURCE_LINENO_COLUMN :: hdr)
              dc ic oc sc path mtime (l + 1) rest).length := by
            simpa using hi
          have := ih (l + 1) (by omega) j hj
          rw [this]
          congr 1
          congr 1
          push_cast
          ring

/-! ## Single-file pipeline unfolding -/

theorem get_file_paths_single (cfg2 : List (String × List String))
    (path : String) (rows : List (List String)) (mtime : Nat)
    (hcsv : is_valid_filename path = true) (hd : cfg2 = []) :
    get_file_paths ⟨path⟩ ⟨[⟨path, rows, mtime⟩], cfg2⟩ initialState =
      .ok ([path], ⟨[path], []⟩) := by
  subst hd
  rw [get_file_paths]
  simp only [initialState, List.isEmpty_nil, if_true]
  rw [computeFilePaths]
  have hex : FS.pathExists ⟨[⟨path, rows, mtime⟩], []⟩ path = true := by
    simp [FS.pathExists]
  have hdir : FS.isDir ⟨[⟨path, rows, mtime⟩], []⟩ path = false := by
    simp [FS.isDir]
  have helig : eligibleFiles ⟨[⟨path, rows, mtime⟩], []⟩ path = [path] := by
    rw [eligibleFiles, hdir]
    simp [hcsv]
  rw [hex, helig]
  simp

theorem findFile_single (path : String) (rows : List (List String))
    (mtime : Nat) (ds : List (String × List String)) :
    FS.findFile ⟨[⟨path, rows, mtime⟩], ds⟩ path =
      some ⟨path, rows, mtime⟩ := by
  simp [FS.findFile]

theorem schema_single (cfg : Config) (path : String) (hdr : List String)
    (dataRows : List (List String)) (mtime : Nat)
    (hcsv : is_valid_filename path = true) :
    schema cfg ⟨path⟩ ⟨[⟨path, hdr :: dataRows, mtime⟩], []⟩ initialState =
      .ok (schemaFromHeader cfg hdr, ⟨[path], cachedHeader cfg hdr⟩) := by
  rw [schema, get_file_paths_single [] path (hdr :: dataRows) mtime hcsv rfl]
  simp only [List.head?_cons, findFile_single]

theorem get_records_single (cfg : Config) (path : String) (hdr : List String)
    (dataRows : List (List String)) (mtime : Nat)
    (hcsv : is_valid_filename path = true) :
    get_records cfg ⟨path⟩ ⟨[⟨path, hdr :: dataRows, mtime⟩], []⟩
        initialState =
      .ok (processRows cfg (cachedHeader cfg hdr)
        (_get_date_columns (schemaFromHeader cfg hdr))
        (_get_columns_by_type (schemaFromHeader cfg hdr) "integer")
        (_get_columns_by_type (schemaFromHeader cfg hdr) "double")
        (_get_columns_by_type (schemaFromHeader cfg hdr) "string")
        path mtime (-1) (hdr :: dataRows),
       ⟨[path], cachedHeader cfg hdr⟩) := by
  rw [get_records, schema_single cfg path hdr dataRows mtime hcsv]
  dsimp only
  have hsecond : get_file_paths ⟨path⟩ ⟨[⟨path, hdr :: dataRows, mtime⟩], []⟩
      ⟨[path], cachedHeader cfg hdr⟩ =
      .ok ([path], ⟨[path], cachedHeader cfg hdr⟩) := by
    rw [get_file_paths]
    simp
  rw [hsecond]
  simp only [recordsFromFiles, findFile_single, List.append_nil]

/-! ## Claim C1 (amended): the line-number column is one-based -/

/-- C1 amended: with metadata columns enabled, every emitted record of a
file carries `_sdc_source_file` equal to the file's resolved path, and the
`i`-th data row (0-based) carries `_sdc_source_lineno = i + 1`: the counter
is the 0-based physical row index with the header at `0`, so the first data
row carries `1` and the second `2` — not `0` and `1`.  (The data header must
not itself use the reserved provenance names; that coupling is what the
source's zip against the extended header relies on.) -/
theorem get_records_lineno_one_based (cm : List Mapping) (path : String)
    (hdr : List String) (dataRows : List (List String)) (mtime : Nat)
    (hcsv : is_valid_filename path = true)
    (hF : SDC_SOURCE_FILE_COLUMN ∉ hdr)
    (hL : SDC_SOURCE_LINENO_COLUMN ∉ hdr) :
    ∃ recs stF,
      get_records ⟨true, cm⟩ ⟨path⟩ ⟨[⟨path, hdr :: dataRows, mtime⟩], []⟩
        initialState = .ok (recs, stF) ∧
      recs.length = dataRows.length ∧
      (∀ r ∈ recs, recGet r SDC_SOURCE_FILE_COLUMN = some (Value.str path)) ∧
      (∀ (i : Nat) (hi : i < recs.length),
        recGet recs[i] SDC_SOURCE_LINENO_COLUMN = some (Value.int (i + 1))) := by
  refine ⟨_, _, get_records_single ⟨true, cm⟩ path hdr dataRows mtime hcsv,
    ?_, ?_, ?_⟩
  all_goals
    rw [show cachedHeader ⟨true, cm⟩ hdr = SDC_SOURCE_FILE_COLUMN ::
      SDC_SOURCE_FILE_MTIME_COLUMN :: SDC_SOURCE_LINENO_COLUMN :: hdr from rfl]
  all_goals
    rw [show processRows ⟨true, cm⟩ (SDC_SOURCE_FILE_COLUMN ::
        SDC_SOURCE_FILE_MTIME_COLUMN :: SDC_SOURCE_LINENO_COLUMN :: hdr)
        (_get_date_columns (schemaFromHeader ⟨true, cm⟩ hdr))
        (_get_columns_by_type (schemaFromHeader ⟨true, cm⟩ hdr) "integer")
        (_get_columns_by_type (schemaFromHeader ⟨true, cm⟩ hdr) "double")
        (_get_columns_by_type (schemaFromHeader ⟨true, cm⟩ hdr) "string")
        path mtime (-1) (hdr :: dataRows) =
      processRows ⟨true, cm⟩ (SDC_SOURCE_FILE_COLUMN ::
        SDC_SOURCE_FILE_MTIME_COLUMN :: SDC_SOURCE_LINENO_COLUMN :: hdr)
        (_get_date_columns (schemaFromHeader ⟨true, cm⟩ hdr))
        (_get_columns_by_type (schemaFromHeader ⟨true, cm⟩ hdr) "integer")
        (_get_columns_by_type (schemaFromHeader ⟨true, cm⟩ hdr) "double")
        (_get_columns_by_type (schemaFromHeader ⟨true, cm⟩ hdr) "string")
        path mtime 0 dataRows from rfl]
  · exact processRows_length _ _ _ _ _ _ _ _ dataRows 0 (by omega)
  · intro r hr
    exact processRows_get_file ⟨true, cm⟩ rfl hdr hF _ _ _ _
      (file_not_mem_date_cols cm hdr hF) (file_not_mem_int_cols cm hdr hF)
      (double_columns_nil ⟨true, cm⟩ hdr) path mtime dataRows 0 r hr
  · intro i hi
    have h := processRows_get_lineno ⟨true, cm⟩ rfl hdr hL _ _ _ _
      (lineno_not_mem_date_cols cm hdr hL) (double_columns_nil ⟨true, cm⟩ hdr)
      (lineno_not_mem_string_cols cm hdr hL) path mtime dataRows 0 (by omega)
      i hi
    have h2 : (0 : Int) + 1 + (i : Int) = (i : Int) + 1 := by omega
    rw [h2] at h
    exact h

/-- Witness for `get_records_lineno_one_based`: the concrete three-row file
used by the counterexample. -/
theorem get_records_lineno_one_based_witness :
    ∃ recs stF,
      get_records ⟨true, []⟩ ⟨"/d/f.csv"⟩
        ⟨[⟨"/d/f.csv", [["a"], ["x"], ["y"]], 7⟩], []⟩ initialState =
        .ok (recs, stF) ∧
      recs.length = ([["x"], ["y"]] : List (List String)).length ∧
      (∀ r ∈ recs, recGet r SDC_SOURCE_FILE_COLUMN =
        some (Value.str "/d/f.csv")) ∧
      (∀ (i : Nat) (hi : i < recs.length),
        recGet recs[i] SDC_SOURCE_LINENO_COLUMN = some (Value.int (i + 1))) :=
  get_records_lineno_one_based [] "/d/f.csv" ["a"] [["x"], ["y"]] 7
    (by decide) (by decide) (by decide)

/-! ## Claim C2 (amended): provenance columns close the schema -/

theorem schemaProperties_keys_sublist (cm : List Mapping) :
    ∀ hdr : List String,
      ((schemaProperties cm hdr).map Prod.fst).Sublist hdr := by
  intro hdr
  induction hdr with
  | nil => simp [schemaProperties]
  | cons c rest ih =>
      rw [schemaProperties, List.filterMap_cons]
      cases hp : propOfColumn cm c with
      | none => exact List.Sublist.cons c ih
      | some p =>
          rw [List.map_cons, propOfColumn_key cm c p hp]
          exact List.Sublist.cons₂ c ih

/-- C2 amended: with metadata columns enabled, the schema consists of the
header-derived data properties (their names a subsequence of the header, in
header order) followed by the three provenance columns appended at the end
in the fixed order file, mtime, lineno; the header cached for row zipping,
in contrast, carries the three provenance names prepended. -/
theorem schema_meta_columns_appended (cm : List Mapping) (hdr : List String)
    (hnd : hdr.Nodup) (hF : SDC_SOURCE_FILE_COLUMN ∉ hdr)
    (hM : SDC_SOURCE_FILE_MTIME_COLUMN ∉ hdr)
    (hL : SDC_SOURCE_LINENO_COLUMN ∉ hdr) :
    schemaFromHeader ⟨true, cm⟩ hdr =
      schemaProperties cm hdr ++ metaProperties ∧
    ((schemaProperties cm hdr).map Prod.fst).Sublist hdr ∧
    cachedHeader ⟨true, cm⟩ hdr = SDC_SOURCE_FILE_COLUMN ::
      SDC_SOURCE_FILE_MTIME_COLUMN :: SDC_SOURCE_LINENO_COLUMN :: hdr := by
  have hkeys := schemaProperties_keys_sublist cm hdr
  have hself : dictOfPairs (schemaProperties cm hdr) = schemaProperties cm hdr :=
    dictOfPairs_eq_self _ (hkeys.nodup hnd)
  refine ⟨?_, hkeys, rfl⟩
  rw [schemaFromHeader_meta_decomp cm hdr hF hM hL, hself]

/-- Witness for `schema_meta_columns_appended`: header `a`. -/
theorem schema_meta_columns_appended_witness :
    schemaFromHeader ⟨true, []⟩ ["a"] =
      schemaProperties [] ["a"] ++ metaProperties ∧
    ((schemaProperties [] ["a"]).map Prod.fst).Sublist ["a"] ∧
    cachedHeader ⟨true, []⟩ ["a"] = SDC_SOURCE_FILE_COLUMN ::
      SDC_SOURCE_FILE_MTIME_COLUMN :: SDC_SOURCE_LINENO_COLUMN :: ["a"] :=
  schema_meta_columns_appended [] ["a"] (by decide) (by decide) (by decide)
    (by decide)

/-! ## Claim C8 (amended): the schema is recomputed on every access -/

/-- C8 amended: the `schema` property performs no caching of its own
result: an access with any stream state whose file-path cache is already
populated (and whatever header was cached before) re-reads the current
first file's header and returns the schema derived from it — the result
depends on the current filesystem, not on any previously computed schema.
Only the file-path list is memoized. -/
theorem schema_recomputed_each_access (cfg : Config) (fc : FileConfig)
    (fs : FS) (p : String) (rest hcache : List String) (f : FSFile)
    (hdr : List String) (rrest : List (List String))
    (hfind : fs.findFile p = some f) (hrows : f.rows = hdr :: rrest) :
    schema cfg fc fs ⟨p :: rest, hcache⟩ =
      .ok (schemaFromHeader cfg hdr, ⟨p :: rest, cachedHeader cfg hdr⟩) := by
  rw [schema, get_file_paths]
  simp only [List.isEmpty_cons, Bool.false_eq_true, if_false]
  simp only [List.head?_cons, hfind, hrows]

/-- Witness for `schema_recomputed_each_access`: a second access with a
stale cached header `a` returns the schema of the current header `b`. -/
theorem schema_recomputed_each_access_witness :
    schema ⟨false, []⟩ ⟨"/d/f.csv"⟩ ⟨[⟨"/d/f.csv", [["b"]], 0⟩], []⟩
        ⟨["/d/f.csv"], ["a"]⟩ =
      .ok (schemaFromHeader ⟨false, []⟩ ["b"],
           ⟨["/d/f.csv"], cachedHeader ⟨false, []⟩ ["b"]⟩) :=
  schema_recomputed_each_access ⟨false, []⟩ ⟨"/d/f.csv"⟩
    ⟨[⟨"/d/f.csv", [["b"]], 0⟩], []⟩ "/d/f.csv" [] ["a"]
    ⟨"/d/f.csv", [["b"]], 0⟩ ["b"] [] (by decide) rfl

end TapCsv
